import Mathlib

/-!
Shallow embedding of `src/Event Stream Processing/Event Stream Processing.cpp`.

`std::vector<SimulationEvent>` is modelled as `List SimulationEvent`; the
C++ `double` fields are modelled as `ℚ` (every literal of the program and
every comparison/sum the claims evaluate is exact, so the rational model
agrees with IEEE double arithmetic at those points); `std::string` is
`String`; the null-pointer "not found" result is `Option.none`.
-/

/-- `enum class EventType` from the source. -/
inductive EventType where
  | SENSOR_READING
  | CONTROL_INPUT
  | ACTUATOR_COMMAND
  deriving DecidableEq

/-- `struct SimulationEvent` from the source. -/
structure SimulationEvent where
  timestampSec : ℚ
  type : EventType
  source : String
  value : ℚ
  deriving DecidableEq

open EventType

/-- `ConstructMockingSimulationEventVector`: the eleven `push_back` calls,
in their source order. -/
def ConstructMockingSimulationEventVector : List SimulationEvent :=
  [ ⟨5.0, ACTUATOR_COMMAND, "flaps", 15.0⟩,
    ⟨1.5, CONTROL_INPUT, "pilot", 75.0⟩,
    ⟨10.5, CONTROL_INPUT, "pilot", 85.0⟩,
    ⟨0.0, SENSOR_READING, "engine1", 100.0⟩,
    ⟨3.2, SENSOR_READING, "altimeter", 5000.0⟩,
    ⟨4.5, CONTROL_INPUT, "pilot", 80.0⟩,
    ⟨9.2, SENSOR_READING, "altimeter", 6000.0⟩,
    ⟨2.0, ACTUATOR_COMMAND, "rudder", 30.0⟩,
    ⟨6.0, SENSOR_READING, "engine2", 110.0⟩,
    ⟨7.5, CONTROL_INPUT, "pilot", 70.0⟩,
    ⟨8.0, ACTUATOR_COMMAND, "aileron", 20.0⟩ ]

/-- `SortByTime` copies the input and calls
`std::ranges::sort(sorted, \x7b\x7d, &SimulationEvent::timestampSec)`.
The C++ standard specifies for `ranges::sort` exactly that the resulting
range is a permutation of the input that is sorted with respect to the
comparator applied to the projection (no element compares strictly less
than its predecessor); it does NOT promise stability.  We therefore embed
`SortByTime` as the input/output relation given by that contract. -/
def SortByTime (events out : List SimulationEvent) : Prop :=
  out.Perm events ∧
    List.Chain' (fun a b => ¬ b.timestampSec < a.timestampSec) out

/-- `FliterBySource` from the source.  Note the initialisation
`std::vector<SimulationEvent> filtered{ events };` copies the WHOLE input
into `filtered` before `std::ranges::copy_if` appends the matching
events through the `back_inserter`, so the function returns the input
followed by the matching events. -/
def FliterBySource (events : List SimulationEvent) (source : String) :
    List SimulationEvent :=
  events ++ events.filter (fun event => decide (source = event.source))

/-- The second `FilterByType` overload (the canonical one; the first
overload falls off the end of the function without returning): starts
from an empty `filtered` vector and `copy_if`s the events whose `type`
equals `typeToFilter`. -/
def FilterByType (events : List SimulationEvent) (typeToFilter : EventType) :
    List SimulationEvent :=
  events.filter (fun ev => decide (ev.type = typeToFilter))

/-- One step of the grouping loops `grouped[key(event)].push_back(event)`:
if the key is already present append the event to its bucket, otherwise
`operator[]` creates the key with a default-constructed bucket and the
event is appended to that.  The bucket contents per key are exactly those
of the C++ `unordered_map`; only the key enumeration order (which the
C++ standard leaves unspecified) is fixed here to first-occurrence order,
and no theorem below depends on that order. -/
def addToGroup {K : Type} [DecidableEq K] (key : SimulationEvent → K) :
    List (K × List SimulationEvent) → SimulationEvent →
      List (K × List SimulationEvent)
  | [], e => [(key e, [e])]
  | (k, l) :: rest, e =>
      if k = key e then (k, l ++ [e]) :: rest
      else (k, l) :: addToGroup key rest e

/-- `GroupBySource`: loop over the events, appending each to the bucket
of its own `source`. -/
def GroupBySource (events : List SimulationEvent) :
    List (String × List SimulationEvent) :=
  events.foldl (addToGroup (fun e => e.source)) []

/-- `GroupByType`: takes a `const EventType& type` argument but never
reads it; the loop appends each event to the bucket of the event's own
`type`. -/
def GroupByType (events : List SimulationEvent) (type : EventType) :
    List (EventType × List SimulationEvent) :=
  events.foldl (addToGroup (fun e => e.type)) []

/-- Map lookup, modelling `grouped.find(k)`: the bucket stored for key
`k`, or `none` when the map has no entry for `k`. -/
def lookupGroup {K : Type} [DecidableEq K]
    (m : List (K × List SimulationEvent)) (k : K) :
    Option (List SimulationEvent) :=
  (m.find? (fun p => decide (p.1 = k))).map (fun p => p.2)

/-- All events stored in a grouping, buckets concatenated. -/
def flattenGroups {K : Type}
    (m : List (K × List SimulationEvent)) : List SimulationEvent :=
  (m.map (fun p => p.2)).flatten

/-- `AcumulateTotalBySource`: `std::accumulate` over the events, seed
`0.0`, adding `event.value` when `event.source == source` and `0.0`
otherwise (a left fold, like `std::accumulate`). -/
def AcumulateTotalBySource (events : List SimulationEvent)
    (source : String) : ℚ :=
  events.foldl
    (fun sum event => sum + (if event.source = source then event.value else 0))
    0

/-- `FirstEventAfter`: `std::ranges::find_if` with predicate
`event.timestampSec > thresholdTime`; the returned pointer-or-`nullptr`
is modelled as an `Option`. -/
def FirstEventAfter (events : List SimulationEvent) (thresholdTime : ℚ) :
    Option SimulationEvent :=
  events.find? (fun event => decide (event.timestampSec > thresholdTime))

/-- Stability of a reordering, stated the standard way: for every
timestamp `t`, the subsequence of events carrying timestamp `t` is the
same before and after.  Two equal-timestamp events keep their relative
order exactly when this holds for their timestamp. -/
def PreservesEqTimeOrder (l out : List SimulationEvent) : Prop :=
  ∀ t : ℚ,
    out.filter (fun e => decide (e.timestampSec = t)) =
      l.filter (fun e => decide (e.timestampSec = t))

/-! ### C1: first event strictly after a threshold -/

theorem firstEventAfter_some_first_index (t : ℚ) :
    ∀ (l : List SimulationEvent) (e : SimulationEvent),
      FirstEventAfter l t = some e →
      ∃ i, ∃ h : i < l.length,
        e = l.get ⟨i, h⟩ ∧ t < e.timestampSec ∧
          ∀ j, ∀ hj : j < l.length, j < i → (l.get ⟨j, hj⟩).timestampSec ≤ t := by
  intro l
  induction l with
  | nil => intro e he; simp [FirstEventAfter] at he
  | cons a l ih =>
      intro e he
      rw [FirstEventAfter] at he
      by_cases h : t < a.timestampSec
      · have hfind :
            List.find? (fun event => decide (event.timestampSec > t)) (a :: l)
              = some a :=
          List.find?_cons_of_pos _ (decide_eq_true h)
        have hea : e = a := (Option.some.inj (hfind.symm.trans he)).symm
        refine ⟨0, by simp, by simpa using hea, by simpa [hea] using h, ?_⟩
        intro j hj hj0
        exact absurd hj0 (Nat.not_lt_zero j)
      · have hfind :
            List.find? (fun event => decide (event.timestampSec > t)) (a :: l)
              = List.find? (fun event => decide (event.timestampSec > t)) l :=
          List.find?_cons_of_neg _ (by simpa using h)
        rw [hfind, ← FirstEventAfter] at he
        obtain ⟨i, hi, hei, het, hprev⟩ := ih e he
        refine ⟨i + 1, by simpa using Nat.succ_lt_succ hi, by simpa using hei,
          het, ?_⟩
        intro j hj hji
        cases j with
        | zero => simpa using not_lt.mp h
        | succ j' =>
            have hj' : j' < l.length := by
              simpa using Nat.lt_of_succ_lt_succ hj
            simpa using hprev j' hj' (Nat.lt_of_succ_lt_succ hji)

/-- C1: `FirstEventAfter` returns the event at the smallest index whose
timestamp is strictly greater than the threshold, scanning in positional
order; it returns the not-found signal (`none`, modelling `nullptr`)
rather than crashing when no index qualifies, and the empty sequence
always yields not-found. -/
theorem FirstEventAfter_correct (events : List SimulationEvent) (t : ℚ) :
    FirstEventAfter [] t = none
    ∧ (FirstEventAfter events t = none ↔ ∀ e ∈ events, e.timestampSec ≤ t)
    ∧ (∀ e, FirstEventAfter events t = some e →
        ∃ i, ∃ h : i < events.length,
          e = events.get ⟨i, h⟩ ∧ t < e.timestampSec ∧
            ∀ j, ∀ hj : j < events.length, j < i →
              (events.get ⟨j, hj⟩).timestampSec ≤ t) := by
  refine ⟨rfl, ?_, firstEventAfter_some_first_index t events⟩
  simp [FirstEventAfter, List.find?_eq_none, not_lt]

theorem FirstEventAfter_correct_witness :
    FirstEventAfter [⟨5.0, ACTUATOR_COMMAND, "flaps", 15.0⟩] 6 = none :=
  (FirstEventAfter_correct [⟨5.0, ACTUATOR_COMMAND, "flaps", 15.0⟩] 6).2.1.mpr
    (by norm_num)

/-! ### C2: FliterBySource -/

/-- C2 evaluated at a failing input: on a single-event sequence whose
event does not match the requested source, `FliterBySource` returns the
event anyway (it copy-initialises the result with the whole input before
appending the matches), so a non-matching event appears in the result. -/
theorem FliterBySource_keeps_nonmatching :
    FliterBySource [⟨0.0, SENSOR_READING, "engine1", 100.0⟩] "pilot"
      = [⟨0.0, SENSOR_READING, "engine1", 100.0⟩]
    ∧ (⟨0.0, SENSOR_READING, "engine1", 100.0⟩ : SimulationEvent).source
        ≠ "pilot" := by
  exact ⟨by norm_num +decide [FliterBySource], by decide⟩

/-! ### Sorting infrastructure shared by C3, C4 and C9 -/

/-- The ordering `ranges::sort` applies to the projected key
`timestampSec`. -/
def leTs (a b : SimulationEvent) : Prop :=
  a.timestampSec ≤ b.timestampSec

instance : DecidableRel leTs := fun a b =>
  inferInstanceAs (Decidable (a.timestampSec ≤ b.timestampSec))

instance : IsTotal SimulationEvent leTs :=
  ⟨fun a b => le_total a.timestampSec b.timestampSec⟩

instance : IsTrans SimulationEvent leTs :=
  ⟨fun _ _ _ hab hbc => le_trans hab hbc⟩

theorem sortByTime_pairwise {out : List SimulationEvent}
    (h : List.Chain' (fun a b => ¬ b.timestampSec < a.timestampSec) out) :
    out.Pairwise leTs :=
  List.chain'_iff_pairwise.mp (h.imp (fun _ _ hab => not_lt.mp hab))

theorem pairwise_sortByTime {out : List SimulationEvent}
    (h : out.Pairwise leTs) :
    List.Chain' (fun a b => ¬ b.timestampSec < a.timestampSec) out :=
  h.chain'.imp (fun _ _ hab => not_lt.mpr hab)

/-- Insertion sort by timestamp is one implementation satisfying the
`ranges::sort` contract embodied in `SortByTime`. -/
theorem insertionSort_sortByTime (events : List SimulationEvent) :
    SortByTime events (List.insertionSort leTs events) :=
  ⟨List.perm_insertionSort leTs events,
   pairwise_sortByTime (List.sorted_insertionSort leTs events)⟩

theorem filter_orderedInsert_timestamp (t : ℚ) (a : SimulationEvent)
    (l : List SimulationEvent) :
    (List.orderedInsert leTs a l).filter (fun e => decide (e.timestampSec = t))
      = if a.timestampSec = t
          then a :: l.filter (fun e => decide (e.timestampSec = t))
          else l.filter (fun e => decide (e.timestampSec = t)) := by
  induction l with
  | nil => by_cases ha : a.timestampSec = t <;> simp [ha]
  | cons b l ih =>
      by_cases hab : leTs a b
      · rw [List.orderedInsert_of_le leTs _ hab]
        by_cases ha : a.timestampSec = t <;> simp [List.filter_cons, ha]
      · have hstep : List.orderedInsert leTs a (b :: l)
            = b :: List.orderedInsert leTs a l := by
          simp [List.orderedInsert, hab]
        rw [hstep]
        by_cases ha : a.timestampSec = t <;> by_cases hb : b.timestampSec = t
        · exact absurd (le_of_eq (ha.trans hb.symm)) hab
        · simp [List.filter_cons, ha, hb, ih]
        · simp [List.filter_cons, ha, hb, ih]
        · simp [List.filter_cons, ha, hb, ih]

/-- Insertion sort by timestamp is stable: it never reorders events that
share a timestamp. -/
theorem insertionSort_preserves_eq_time_order (events : List SimulationEvent) :
    PreservesEqTimeOrder events (List.insertionSort leTs events) := by
  intro t
  induction events with
  | nil => simp
  | cons a l ih =>
      rw [List.insertionSort, filter_orderedInsert_timestamp]
      by_cases ha : a.timestampSec = t <;> simp [List.filter_cons, ha, ih]

/-! ### C3: stability of SortByTime -/

/-- C3 counterexample: on two distinct events sharing timestamp `1.0`,
the output that swaps them satisfies the `ranges::sort` contract
(`SortByTime`), yet the relative order of the equal-timestamp pair is
not preserved — so the sort is not guaranteed stable as claimed. -/
theorem SortByTime_stability_counterexample :
    SortByTime
      [⟨1.0, CONTROL_INPUT, "a", 0.0⟩, ⟨1.0, CONTROL_INPUT, "b", 0.0⟩]
      [⟨1.0, CONTROL_INPUT, "b", 0.0⟩, ⟨1.0, CONTROL_INPUT, "a", 0.0⟩]
    ∧ ¬ PreservesEqTimeOrder
        [⟨1.0, CONTROL_INPUT, "a", 0.0⟩, ⟨1.0, CONTROL_INPUT, "b", 0.0⟩]
        [⟨1.0, CONTROL_INPUT, "b", 0.0⟩, ⟨1.0, CONTROL_INPUT, "a", 0.0⟩] := by
  refine ⟨⟨List.Perm.swap _ _ _, ?_⟩, ?_⟩
  · norm_num [List.chain'_cons]
  · intro hpres
    have h1 := hpres 1
    norm_num [SimulationEvent.mk.injEq] at h1
    exact absurd h1.1 (by decide)

/-- C3 amended: `SortByTime` (the `std::ranges::sort` contract) is not
guaranteed stable; what holds is that some admissible output is stable:
for every input there exists an output satisfying the sort contract in
which events with equal timestamps keep their original relative order. -/
theorem SortByTime_stable_output_exists (events : List SimulationEvent) :
    ∃ out, SortByTime events out ∧ PreservesEqTimeOrder events out :=
  ⟨List.insertionSort leTs events,
   insertionSort_sortByTime events,
   insertionSort_preserves_eq_time_order events⟩

/-! ### C9: SortByTime output is an ascending permutation -/

/-- C9: every result admitted by `SortByTime` is a permutation of its
input — the multiset of output events equals the multiset of input
events, so no event is lost, duplicated or altered — and is ordered by
ascending timestamp; moreover such a result exists for every input. -/
theorem SortByTime_perm_and_ascending (events : List SimulationEvent) :
    (∃ out, SortByTime events out)
    ∧ ∀ out, SortByTime events out →
        ((↑out : Multiset SimulationEvent) = ↑events
          ∧ out.Pairwise (fun a b => a.timestampSec ≤ b.timestampSec)) := by
  refine ⟨⟨List.insertionSort leTs events, insertionSort_sortByTime events⟩, ?_⟩
  intro out hout
  exact ⟨Multiset.coe_eq_coe.mpr hout.1, sortByTime_pairwise hout.2⟩

theorem SortByTime_perm_and_ascending_witness :
    ((↑([⟨5.0, ACTUATOR_COMMAND, "flaps", 15.0⟩] : List SimulationEvent) :
        Multiset SimulationEvent)
      = ↑([⟨5.0, ACTUATOR_COMMAND, "flaps", 15.0⟩] : List SimulationEvent))
    ∧ List.Pairwise (fun a b => a.timestampSec ≤ b.timestampSec)
        ([⟨5.0, ACTUATOR_COMMAND, "flaps", 15.0⟩] : List SimulationEvent) :=
  (SortByTime_perm_and_ascending _).2 _
    ⟨List.Perm.refl _, List.chain'_singleton _⟩

/-! ### C4: FirstEventAfter on the mock dataset -/

/-- The ascending-timestamp ordering of the mock dataset. -/
def sortedMockEvents : List SimulationEvent :=
  [ ⟨0.0, SENSOR_READING, "engine1", 100.0⟩,
    ⟨1.5, CONTROL_INPUT, "pilot", 75.0⟩,
    ⟨2.0, ACTUATOR_COMMAND, "rudder", 30.0⟩,
    ⟨3.2, SENSOR_READING, "altimeter", 5000.0⟩,
    ⟨4.5, CONTROL_INPUT, "pilot", 80.0⟩,
    ⟨5.0, ACTUATOR_COMMAND, "flaps", 15.0⟩,
    ⟨6.0, SENSOR_READING, "engine2", 110.0⟩,
    ⟨7.5, CONTROL_INPUT, "pilot", 70.0⟩,
    ⟨8.0, ACTUATOR_COMMAND, "aileron", 20.0⟩,
    ⟨9.2, SENSOR_READING, "altimeter", 6000.0⟩,
    ⟨10.5, CONTROL_INPUT, "pilot", 85.0⟩ ]

theorem insertionSort_mock :
    List.insertionSort leTs ConstructMockingSimulationEventVector
      = sortedMockEvents := by
  norm_num [ConstructMockingSimulationEventVector, sortedMockEvents,
    List.insertionSort, List.orderedInsert, leTs]

/-- Two sorted lists that are permutations of one another and have no
repeated timestamps are equal. -/
theorem sorted_perm_eq_of_nodup_ts :
    ∀ (l₁ l₂ : List SimulationEvent), l₁.Perm l₂ →
      l₁.Pairwise leTs → l₂.Pairwise leTs →
      (l₁.map (fun e => e.timestampSec)).Nodup → l₁ = l₂ := by
  intro l₁
  induction l₁ with
  | nil =>
      intro l₂ h _ _ _
      exact (h.symm.eq_nil).symm
  | cons a t₁ ih =>
      intro l₂ h s₁ s₂ hn
      cases l₂ with
      | nil => exact absurd h.eq_nil (by simp)
      | cons b t₂ =>
          have hat : a = b := by
            by_contra hne
            have ha2 : a ∈ t₂ := by
              have := h.subset (List.mem_cons_self a t₁)
              simpa [hne] using this
            have hb1 : b ∈ t₁ := by
              have := h.symm.subset (List.mem_cons_self b t₂)
              simpa [Ne.symm hne] using this
            have hba : leTs b a := List.rel_of_pairwise_cons s₂ ha2
            have hab : leTs a b := List.rel_of_pairwise_cons s₁ hb1
            have hts : a.timestampSec = b.timestampSec :=
              le_antisymm hab hba
            have : a.timestampSec ∈ t₁.map (fun e => e.timestampSec) := by
              rw [hts]
              exact List.mem_map_of_mem _ hb1
            exact (List.nodup_cons.mp hn).1 this
          subst hat
          have htails : t₁.Perm t₂ := h.cons_inv
          have := ih t₂ htails (List.Pairwise.of_cons s₁)
            (List.Pairwise.of_cons s₂) (List.nodup_cons.mp hn).2
          rw [this]

/-- Any output admitted by `SortByTime` on the mock dataset is exactly
its ascending ordering (all mock timestamps are distinct). -/
theorem sortByTime_mock_unique (out : List SimulationEvent)
    (h : SortByTime ConstructMockingSimulationEventVector out) :
    out = sortedMockEvents := by
  have hperm : out.Perm sortedMockEvents :=
    h.1.trans (insertionSort_mock ▸ (List.perm_insertionSort leTs
      ConstructMockingSimulationEventVector).symm)
  have hn : (out.map (fun e => e.timestampSec)).Nodup := by
    have hmock :
        (ConstructMockingSimulationEventVector.map
          (fun e => e.timestampSec)).Nodup := by
      norm_num [ConstructMockingSimulationEventVector, List.nodup_cons]
    exact ((h.1.map (fun e => e.timestampSec)).nodup_iff).mpr hmock
  exact sorted_perm_eq_of_nodup_ts out sortedMockEvents hperm
    (sortByTime_pairwise h.2)
    (insertionSort_mock ▸ List.sorted_insertionSort leTs
      ConstructMockingSimulationEventVector) hn

/-- C4 counterexample: on the mock dataset in insertion order,
`FirstEventAfter` at threshold `6.0` returns the event with timestamp
`10.5` (the element at index 2), which is not the event at index 0, so
the claim's first half fails. -/
theorem FirstEventAfter_mock_counterexample :
    FirstEventAfter ConstructMockingSimulationEventVector 6
      = some ⟨10.5, CONTROL_INPUT, "pilot", 85.0⟩
    ∧ ConstructMockingSimulationEventVector[0]?
        = some ⟨5.0, ACTUATOR_COMMAND, "flaps", 15.0⟩
    ∧ (⟨10.5, CONTROL_INPUT, "pilot", 85.0⟩ : SimulationEvent)
        ≠ ⟨5.0, ACTUATOR_COMMAND, "flaps", 15.0⟩ := by
  refine ⟨?_, rfl, ?_⟩
  · norm_num [FirstEventAfter, ConstructMockingSimulationEventVector,
      List.find?]
  · norm_num [SimulationEvent.mk.injEq]

/-- C4 amended: on the mock dataset in insertion order,
`FirstEventAfter(events, 6.0)` returns the event at index 2 — timestamp
`10.5`, source `"pilot"`, value `85.0` — and on the ascending
time-sorted copy it returns the event with timestamp `7.5`, source
`"pilot"`, value `70.0`. -/
theorem FirstEventAfter_mock_amended :
    FirstEventAfter ConstructMockingSimulationEventVector 6
      = some ⟨10.5, CONTROL_INPUT, "pilot", 85.0⟩
    ∧ ConstructMockingSimulationEventVector[2]?
        = some ⟨10.5, CONTROL_INPUT, "pilot", 85.0⟩
    ∧ ∀ out, SortByTime ConstructMockingSimulationEventVector out →
        FirstEventAfter out 6 = some ⟨7.5, CONTROL_INPUT, "pilot", 70.0⟩ := by
  refine ⟨?_, rfl, ?_⟩
  · norm_num [FirstEventAfter, ConstructMockingSimulationEventVector,
      List.find?]
  · intro out hout
    rw [sortByTime_mock_unique out hout]
    norm_num [FirstEventAfter, sortedMockEvents, List.find?]

theorem FirstEventAfter_mock_amended_witness :
    FirstEventAfter sortedMockEvents 6
      = some ⟨7.5, CONTROL_INPUT, "pilot", 70.0⟩ :=
  FirstEventAfter_mock_amended.2.2 sortedMockEvents
    (insertionSort_mock ▸
      insertionSort_sortByTime ConstructMockingSimulationEventVector)

/-! ### C5: FilterByType (canonical overload) -/

/-- C5: `FilterByType` always returns a value containing exactly the
input events whose kind equals the target, as a stable filter: the
result is a sublist of the input (original relative order, not a
re-sort), membership in the result is membership in the input with the
target kind, and multiplicities are preserved for matching events and
zero otherwise. -/
theorem FilterByType_spec (events : List SimulationEvent) (K : EventType) :
    (FilterByType events K).Sublist events
    ∧ (∀ e, e ∈ FilterByType events K ↔ (e ∈ events ∧ e.type = K))
    ∧ (∀ e, (FilterByType events K).count e
        = if e.type = K then events.count e else 0) := by
  refine ⟨List.filter_sublist _, ?_, ?_⟩
  · intro e
    simp [FilterByType, List.mem_filter]
  · intro e
    by_cases h : e.type = K
    · rw [if_pos h, FilterByType]
      exact List.count_filter (by simpa using h)
    · rw [if_neg h]
      refine List.count_eq_zero.mpr ?_
      intro hmem
      rw [FilterByType] at hmem
      exact h (by simpa using (List.mem_filter.mp hmem).2)

theorem FilterByType_spec_witness :
    (⟨5.0, ACTUATOR_COMMAND, "flaps", 15.0⟩ : SimulationEvent)
      ∈ FilterByType ConstructMockingSimulationEventVector ACTUATOR_COMMAND :=
  ((FilterByType_spec ConstructMockingSimulationEventVector
      ACTUATOR_COMMAND).2.1 _).mpr
    ⟨by simp [ConstructMockingSimulationEventVector], rfl⟩

/-! ### C7: AcumulateTotalBySource -/

theorem acumulate_foldl_eq_sum (source : String) :
    ∀ (l : List SimulationEvent) (a : ℚ),
      l.foldl (fun sum event =>
          sum + (if event.source = source then event.value else 0)) a
        = a + ((l.filter (fun e => decide (e.source = source))).map
            (fun e => e.value)).sum := by
  intro l
  induction l with
  | nil => intro a; simp
  | cons e l ih =>
      intro a
      rw [List.foldl_cons, ih]
      by_cases h : e.source = source
      · simp [List.filter_cons, h, add_assoc]
      · simp [List.filter_cons, h]

/-- C7: `AcumulateTotalBySource` is the left-to-right fold seeded with
`0.0` that adds the `value` of each event whose `source` matches and
leaves the accumulator unchanged otherwise (equivalently, the sum of
the values of the matching events); it is exactly `0` on the empty
sequence and whenever no event matches, and on the mock dataset the sum
for source `"pilot"` is `310`. -/
theorem AcumulateTotalBySource_spec (events : List SimulationEvent)
    (source : String) :
    AcumulateTotalBySource events source
      = ((events.filter (fun e => decide (e.source = source))).map
          (fun e => e.value)).sum
    ∧ AcumulateTotalBySource [] source = 0
    ∧ ((∀ e ∈ events, e.source ≠ source) →
        AcumulateTotalBySource events source = 0)
    ∧ AcumulateTotalBySource ConstructMockingSimulationEventVector "pilot"
        = 310 := by
  refine ⟨?_, rfl, ?_, ?_⟩
  · rw [AcumulateTotalBySource, acumulate_foldl_eq_sum]
    simp
  · intro hnone
    rw [AcumulateTotalBySource, acumulate_foldl_eq_sum]
    have hfil : events.filter (fun e => decide (e.source = source)) = [] :=
      List.filter_eq_nil_iff.mpr (fun e he => by simpa using hnone e he)
    simp [hfil]
  · norm_num +decide [AcumulateTotalBySource,
      ConstructMockingSimulationEventVector]

theorem AcumulateTotalBySource_spec_witness :
    AcumulateTotalBySource [⟨0.0, SENSOR_READING, "engine1", 100.0⟩] "pilot"
      = 0 :=
  (AcumulateTotalBySource_spec
      [⟨0.0, SENSOR_READING, "engine1", 100.0⟩] "pilot").2.2.1
    (by norm_num +decide)

/-! ### Grouping machinery shared by C6 and C10 -/

theorem lookupGroup_cons {K : Type} [DecidableEq K] (k' : K)
    (l' : List SimulationEvent) (rest : List (K × List SimulationEvent))
    (k : K) :
    lookupGroup ((k', l') :: rest) k
      = if k' = k then some l' else lookupGroup rest k := by
  by_cases h : k' = k
  · simp [lookupGroup, h]
  · simp [lookupGroup, h]

theorem lookupGroup_addToGroup {K : Type} [DecidableEq K]
    (key : SimulationEvent → K) (e : SimulationEvent) (k : K) :
    ∀ m : List (K × List SimulationEvent),
      lookupGroup (addToGroup key m e) k
        = if k = key e
            then some (((lookupGroup m k).getD []) ++ [e])
            else lookupGroup m k := by
  intro m
  induction m with
  | nil =>
      by_cases h : k = key e
      · simp [addToGroup, lookupGroup_cons, lookupGroup, h]
      · simp [addToGroup, lookupGroup_cons, lookupGroup, Ne.symm h, h]
  | cons p rest ih =>
      obtain ⟨k', l'⟩ := p
      by_cases hk' : k' = key e
      · rw [addToGroup, if_pos hk']
        by_cases h : k = key e
        · have : k' = k := hk'.trans h.symm
          simp [lookupGroup_cons, this, h]
        · have : ¬ k' = k := fun hc => h (hc.symm.trans hk')
          simp [lookupGroup_cons, this, h]
      · rw [addToGroup, if_neg hk']
        by_cases hkk : k' = k
        · have : ¬ k = key e := fun hc => hk' (hkk.symm ▸ hc)
          simp [lookupGroup_cons, hkk, this]
        · simp [lookupGroup_cons, hkk, ih]

theorem lookupGroup_foldl {K : Type} [DecidableEq K]
    (key : SimulationEvent → K) (k : K) :
    ∀ (es : List SimulationEvent) (m : List (K × List SimulationEvent)),
      lookupGroup (es.foldl (addToGroup key) m) k
        = if lookupGroup m k = none
              ∧ es.filter (fun e => decide (key e = k)) = []
            then none
            else some (((lookupGroup m k).getD [])
              ++ es.filter (fun e => decide (key e = k))) := by
  intro es
  induction es with
  | nil =>
      intro m
      cases ho : lookupGroup m k with
      | none => simp [ho]
      | some l => simp [ho]
  | cons e es ih =>
      intro m
      rw [List.foldl_cons, ih]
      rw [lookupGroup_addToGroup]
      by_cases h : k = key e
      · rw [if_pos h]
        have hfe : (fun e => decide (key e = k)) e = true := by
          simpa using h.symm
        have hfil : List.filter (fun e => decide (key e = k)) (e :: es)
            = e :: List.filter (fun e => decide (key e = k)) es :=
          List.filter_cons_of_pos hfe
        rw [hfil]
        cases ho : lookupGroup m k with
        | none => simp
        | some l => simp
      · rw [if_neg h]
        have hfe : ¬ (fun e => decide (key e = k)) e = true := by
          simpa using fun hc => h hc.symm
        have hfil : List.filter (fun e => decide (key e = k)) (e :: es)
            = List.filter (fun e => decide (key e = k)) es :=
          List.filter_cons_of_neg hfe
        rw [hfil]

theorem flattenGroups_addToGroup {K : Type} [DecidableEq K]
    (key : SimulationEvent → K) (e : SimulationEvent) :
    ∀ m : List (K × List SimulationEvent),
      (flattenGroups (addToGroup key m e)).Perm (flattenGroups m ++ [e]) := by
  intro m
  induction m with
  | nil => simp [addToGroup, flattenGroups]
  | cons p rest ih =>
      obtain ⟨k', l'⟩ := p
      by_cases hk' : k' = key e
      · rw [addToGroup, if_pos hk']
        simp only [flattenGroups, List.map_cons, List.flatten_cons,
          List.append_assoc]
        exact List.Perm.append_left l' List.perm_append_comm
      · rw [addToGroup, if_neg hk']
        simp only [flattenGroups, List.map_cons, List.flatten_cons,
          List.append_assoc]
        exact List.Perm.append_left l' ih

theorem flattenGroups_foldl {K : Type} [DecidableEq K]
    (key : SimulationEvent → K) :
    ∀ (es : List SimulationEvent) (m : List (K × List SimulationEvent)),
      (flattenGroups (es.foldl (addToGroup key) m)).Perm
        (flattenGroups m ++ es) := by
  intro es
  induction es with
  | nil => intro m; simp
  | cons e es ih =>
      intro m
      rw [List.foldl_cons]
      refine (ih (addToGroup key m e)).trans ?_
      refine ((flattenGroups_addToGroup key e m).append_right es).trans ?_
      rw [List.append_assoc, List.singleton_append]

theorem entries_nonempty_addToGroup {K : Type} [DecidableEq K]
    (key : SimulationEvent → K) (e : SimulationEvent) :
    ∀ m : List (K × List SimulationEvent),
      (∀ p ∈ m, p.2 ≠ []) →
      ∀ p ∈ addToGroup key m e, p.2 ≠ [] := by
  intro m
  induction m with
  | nil =>
      intro _ p hp
      simp only [addToGroup, List.mem_singleton] at hp
      subst hp
      simp
  | cons q rest ih =>
      obtain ⟨k', l'⟩ := q
      intro hm p hp
      by_cases hk' : k' = key e
      · rw [addToGroup, if_pos hk'] at hp
        rcases List.mem_cons.mp hp with h | h
        · subst h; simp
        · exact hm p (List.mem_cons_of_mem _ h)
      · rw [addToGroup, if_neg hk'] at hp
        rcases List.mem_cons.mp hp with h | h
        · subst h; exact hm _ (List.mem_cons_self _ _)
        · exact ih (fun q hq => hm q (List.mem_cons_of_mem _ hq)) p h

/-! ### C6: GroupBySource is a partition -/

theorem lookupGroup_GroupBySource (events : List SimulationEvent)
    (s : String) :
    lookupGroup (GroupBySource events) s
      = if events.filter (fun e => decide (e.source = s)) = []
          then none
          else some (events.filter (fun e => decide (e.source = s))) := by
  rw [GroupBySource, lookupGroup_foldl]
  simp [lookupGroup]

theorem filter_source_eq_nil_iff (events : List SimulationEvent)
    (s : String) :
    events.filter (fun e => decide (e.source = s)) = []
      ↔ s ∉ events.map (fun e => e.source) := by
  rw [List.filter_eq_nil_iff]
  constructor
  · intro h hmem
    obtain ⟨e, he, hes⟩ := List.mem_map.mp hmem
    exact h e he (by simpa using hes)
  · intro h e he
    simp only [decide_eq_true_eq]
    intro hes
    exact h (List.mem_map.mpr ⟨e, he, hes⟩)

/-- C6: `GroupBySource` partitions the input.  The union of the groups,
as a multiset, equals the input multiset; every group stored for a key
`s` consists exactly of the input events whose `source` is `s`, in
their original relative order, and is never empty (so every event lies
in precisely the group keyed by its own source); and a source that does
not occur in the input has no mapping entry. -/
theorem GroupBySource_partition (events : List SimulationEvent) :
    ((↑(flattenGroups (GroupBySource events)) : Multiset SimulationEvent)
        = ↑events)
    ∧ (∀ s l, lookupGroup (GroupBySource events) s = some l →
        l = events.filter (fun e => decide (e.source = s)) ∧ l ≠ [])
    ∧ (∀ s, lookupGroup (GroupBySource events) s = none ↔
        s ∉ events.map (fun e => e.source))
    ∧ (∀ s l e, lookupGroup (GroupBySource events) s = some l → e ∈ l →
        e.source = s) := by
  refine ⟨?_, ?_, ?_, ?_⟩
  · refine Multiset.coe_eq_coe.mpr ?_
    have hperm := flattenGroups_foldl (fun e => e.source) events []
    simpa [flattenGroups, GroupBySource] using hperm
  · intro s l hl
    rw [lookupGroup_GroupBySource] at hl
    by_cases hfil : events.filter (fun e => decide (e.source = s)) = []
    · rw [if_pos hfil] at hl
      exact absurd hl (by simp)
    · rw [if_neg hfil] at hl
      have hlf : l = events.filter (fun e => decide (e.source = s)) :=
        (Option.some.inj hl).symm
      refine ⟨hlf, ?_⟩
      rw [hlf]
      exact hfil
  · intro s
    rw [lookupGroup_GroupBySource]
    by_cases hfil : events.filter (fun e => decide (e.source = s)) = []
    · rw [if_pos hfil]
      simp [(filter_source_eq_nil_iff events s).mp hfil]
    · rw [if_neg hfil]
      constructor
      · intro hc
        exact absurd hc (by simp)
      · intro hc
        exact absurd ((filter_source_eq_nil_iff events s).mpr hc) hfil
  · intro s l e hl hel
    rw [lookupGroup_GroupBySource] at hl
    by_cases hfil : events.filter (fun e => decide (e.source = s)) = []
    · rw [if_pos hfil] at hl
      exact absurd hl (by simp)
    · rw [if_neg hfil] at hl
      rw [(Option.some.inj hl).symm] at hel
      exact (by simpa using (List.mem_filter.mp hel).2)

theorem GroupBySource_partition_witness :
    ([(⟨0.0, SENSOR_READING, "engine1", 100.0⟩ : SimulationEvent)]
        = [(⟨0.0, SENSOR_READING, "engine1", 100.0⟩ : SimulationEvent)].filter
            (fun e => decide (e.source = "engine1")))
    ∧ [(⟨0.0, SENSOR_READING, "engine1", 100.0⟩ : SimulationEvent)] ≠ [] :=
  (GroupBySource_partition
      [⟨0.0, SENSOR_READING, "engine1", 100.0⟩]).2.1 "engine1"
    [⟨0.0, SENSOR_READING, "engine1", 100.0⟩] rfl

/-! ### C10: GroupByType ignores its EventType argument -/

theorem lookupGroup_GroupByType (events : List SimulationEvent)
    (t : EventType) (k : EventType) :
    lookupGroup (GroupByType events t) k
      = if events.filter (fun e => decide (e.type = k)) = []
          then none
          else some (events.filter (fun e => decide (e.type = k))) := by
  rw [GroupByType, lookupGroup_foldl]
  simp [lookupGroup]

/-- C10: the `EventType` argument of `GroupByType` has no effect on its
result: for any two kinds the results coincide, and the result always
partitions the input events into groups keyed by each event's own kind
(the group stored for a kind is exactly the subsequence of input events
of that kind). -/
theorem GroupByType_ignores_argument (events : List SimulationEvent)
    (t1 t2 : EventType) :
    GroupByType events t1 = GroupByType events t2
    ∧ ((↑(flattenGroups (GroupByType events t1)) : Multiset SimulationEvent)
        = ↑events)
    ∧ (∀ t l, lookupGroup (GroupByType events t1) t = some l →
        l = events.filter (fun e => decide (e.type = t)))
    ∧ (∀ t l e, lookupGroup (GroupByType events t1) t = some l → e ∈ l →
        e.type = t) := by
  refine ⟨rfl, ?_, ?_, ?_⟩
  · refine Multiset.coe_eq_coe.mpr ?_
    have hperm := flattenGroups_foldl (fun e => e.type) events []
    simpa [flattenGroups, GroupByType] using hperm
  · intro t l hl
    rw [lookupGroup_GroupByType] at hl
    by_cases hfil : events.filter (fun e => decide (e.type = t)) = []
    · rw [if_pos hfil] at hl
      exact absurd hl (by simp)
    · rw [if_neg hfil] at hl
      exact (Option.some.inj hl).symm
  · intro t l e hl hel
    rw [lookupGroup_GroupByType] at hl
    by_cases hfil : events.filter (fun e => decide (e.type = t)) = []
    · rw [if_pos hfil] at hl
      exact absurd hl (by simp)
    · rw [if_neg hfil] at hl
      rw [(Option.some.inj hl).symm] at hel
      exact (by simpa using (List.mem_filter.mp hel).2)

theorem GroupByType_ignores_argument_witness :
    [(⟨0.0, SENSOR_READING, "engine1", 100.0⟩ : SimulationEvent)]
      = [(⟨0.0, SENSOR_READING, "engine1", 100.0⟩ : SimulationEvent)].filter
          (fun e => decide (e.type = SENSOR_READING)) :=
  (GroupByType_ignores_argument
      [⟨0.0, SENSOR_READING, "engine1", 100.0⟩] SENSOR_READING
      ACTUATOR_COMMAND).2.2.1 SENSOR_READING
    [⟨0.0, SENSOR_READING, "engine1", 100.0⟩] rfl
